import Mathlib

/-!
Verification development for the package graph resolution and addon
discovery core (`lib/models/package-info-cache/package-info.js`).

The embedding is shallow: the `PackageInfo` class becomes a Lean structure
holding the fields the discovery and resolution methods read, JavaScript
objects used as name keyed maps become association lists in key insertion
order, and the mutable state touched by a method (the error list, the
one time dump flag) is threaded explicitly, with each method returning the
updated node next to its ordinary result. External collaborators that the
source file only calls (the cache lookup `cache._findPackage`, the module
index `nodeModules.findPackage`, `path.dirname`, `path.relative`, the
warning channel `ui.writeWarnLine`) are passed in as function or boolean
parameters, following the interface the specification gives for them.
-/

set_option autoImplicit false

namespace PackageInfoCache

/-- The slice of a parsed `package.json` manifest that the core reads:
`name` and `keywords`. `keywords` is `none` when the manifest field is
absent or is not an array (the source guards with `Array.isArray`). -/
structure PkgJson where
  name : String
  keywords : Option (List String)
deriving Repr, DecidableEq

/-- The observable fields of a `PackageInfo` when it occurs as a candidate
in an addon package list: its manifest, canonical real path and validity
flag. Candidate lists and dependency maps hold these views. -/
structure PackageView where
  pkg : PkgJson
  realPath : String
  valid : Bool
deriving Repr, DecidableEq

/-- `get name() { return this.pkg.name; }` of the source. -/
def PackageView.name (p : PackageView) : String :=
  p.pkg.name

/-- `isAddon()` of the source: the manifest has an array valued `keywords`
field containing the string `ember-addon`. -/
def PackageView.isAddon (p : PackageView) : Bool :=
  match p.pkg.keywords with
  | some ks => ks.contains "ember-addon"
  | none => false

/-- An error recorded on a node: the error kind together with its data
(here always a list of dependency names). Modelled from the spec: the
`ErrorList` collaborator accumulates `(errorKind, errorData)` pairs per
node, in order. -/
abbrev ErrorEntry : Type := String × List String

/-- Modelled from the spec: the `Errors.ERROR_DEPENDENCIES_MISSING`
constant of the external `errors` module; the spec names the recognized
kind "dependencies missing", carrying the list of unresolved names. -/
def ERROR_DEPENDENCIES_MISSING : String := "dependencies missing"

/-- The `PackageInfo` node itself: the fields of the class that the
methods under verification read or write. Fields the source leaves
`undefined` until set are `Option`s. `cliInfoInRepoAddons` collapses the
`cliInfo` reference to the only field of it the source reads: `none`
means no `cliInfo`, `some none` a `cliInfo` whose `inRepoAddons` is still
undefined, `some (some l)` a `cliInfo` with in-repo addons `l`.
`nodeModulesFind` is `nodeModules.findPackage` when `nodeModules` is set.
`project` is `none` when `this.project` is undefined; otherwise it holds
the result of `project.isEmberCLIAddon()` (modelled from the spec:
whether the project package is recognized as addon shaped; the `Project`
class is outside this file). -/
structure PackageInfo where
  pkg : PkgJson
  realPath : String
  valid : Bool
  errors : List ErrorEntry
  hasDumpedInvalidAddonPackages : Bool
  inRepoAddons : Option (List PackageView)
  internalAddons : Option (List PackageView)
  cliInfoInRepoAddons : Option (Option (List PackageView))
  dependencyPackages : Option (List (String × PackageView))
  devDependencyPackages : Option (List (String × PackageView))
  nodeModulesFind : Option (String → Option PackageView)
  project : Option Bool

/-- The node viewed as a candidate package (used when
`discoverProjectAddons` pushes `this` onto the candidate list). -/
def PackageInfo.toView (n : PackageInfo) : PackageView :=
  ⟨n.pkg, n.realPath, n.valid⟩

/-- `addError` of the source: append one entry to the error list. -/
def PackageInfo.addError (n : PackageInfo) (errorType : String)
    (errorData : List String) : PackageInfo :=
  { n with errors := n.errors ++ [(errorType, errorData)] }

/-- Resolution of one declared dependency name, lines 151 to 167 of the
source: consult the local module index first when the node has one, and
only when that misses call `cache._findPackage(name, path.dirname(realPath))`.
`cacheFindPackage` and `dirname` stand for those external collaborators. -/
def resolveDep (cacheFindPackage : String → String → Option PackageView)
    (dirname : String → String) (node : PackageInfo)
    (dependencyName : String) : Option PackageView :=
  let fromLocal :=
    match node.nodeModulesFind with
    | some findPackage => findPackage dependencyName
    | none => none
  match fromLocal with
  | some p => some p
  | none => cacheFindPackage dependencyName (dirname node.realPath)

/-- The body of the `dependencyNames.forEach` loop of `addDependencies`,
lines 151 to 174 of the source: a resolved name goes to the `packages`
map (first component, in declaration order), a failed one to the
`missingDependencies` list (second component). -/
def depStep (cacheFindPackage : String → String → Option PackageView)
    (dirname : String → String) (node : PackageInfo)
    (acc : List (String × PackageView) × List String)
    (dependencyName : String) :
    List (String × PackageView) × List String :=
  match resolveDep cacheFindPackage dirname node dependencyName with
  | some dependencyPackage =>
      (acc.1 ++ [(dependencyName, dependencyPackage)], acc.2)
  | none => (acc.1, acc.2 ++ [dependencyName])

/-- `addDependencies` of the source. The dependency spec is the list of
declared names in key order (`Object.keys`); a `null` spec is `none`.
Returns the name keyed result map (an association list in insertion
order) paired with the node after any error recording. The Lean function
is total: the source method throws no exception on any input. -/
def PackageInfo.addDependencies
    (cacheFindPackage : String → String → Option PackageView)
    (dirname : String → String) (node : PackageInfo)
    (dependencies : Option (List String)) :
    Option (List (String × PackageView)) × PackageInfo :=
  match dependencies with
  | none => (none, node)
  | some dependencyNames =>
    if dependencyNames.length = 0 then
      (none, node)
    else
      let res := dependencyNames.foldl
        (depStep cacheFindPackage dirname node) ([], [])
      let node :=
        if res.2.length > 0 then
          node.addError ERROR_DEPENDENCIES_MISSING res.2
        else
          node
      (some res.1, node)

/-- The sublist of entries of the result map of `addDependencies`: one
entry per declared name that resolves, keyed by the declared name, in
declaration order. -/
def resolvedEntries (cacheFindPackage : String → String → Option PackageView)
    (dirname : String → String) (node : PackageInfo)
    (dependencyNames : List String) : List (String × PackageView) :=
  dependencyNames.filterMap (fun dependencyName =>
    (resolveDep cacheFindPackage dirname node dependencyName).map
      (fun p => (dependencyName, p)))

/-- The declared names that fail to resolve, in declaration order. -/
def missingNames (cacheFindPackage : String → String → Option PackageView)
    (dirname : String → String) (node : PackageInfo)
    (dependencyNames : List String) : List String :=
  dependencyNames.filter (fun dependencyName =>
    (resolveDep cacheFindPackage dirname node dependencyName).isNone)

/-- The second argument of `addPackages` in the source is either an array
of package infos or an object keyed by name (`dependencyPackages` and
`devDependencyPackages`); the object case is an association list in key
insertion order, matching `Object.keys` iteration. -/
inductive PackageInfoList where
  | arr : List PackageView → PackageInfoList
  | objMap : List (String × PackageView) → PackageInfoList

/-- `addPackages` of the source: append to `addonPackageList` the members
of `packageInfoList` (array elements in order, or object values in key
order), dropping those for which `excludeFn` returns true when an
`excludeFn` is given. A `none` list is the early return on `null`. -/
def PackageInfo.addPackages (addonPackageList : List PackageView)
    (packageInfoList : Option PackageInfoList)
    (excludeFn : Option (PackageView → Bool)) : List PackageView :=
  match packageInfoList with
  | none => addonPackageList
  | some (PackageInfoList.arr l) =>
    let filtered :=
      match excludeFn with
      | some f => l.filter (fun pkgInfo => !(f pkgInfo))
      | none => l
    addonPackageList ++ filtered
  | some (PackageInfoList.objMap m) =>
    addonPackageList ++
      (m.filter (fun kv =>
        match excludeFn with
        | some f => !(f kv.2)
        | none => true)).map Prod.snd

/-- `discoverAddonAddons` of the source: dependency packages, excluding
any that is not an addon or is named `ember-cli`, then in-repo addons. -/
def PackageInfo.discoverAddonAddons (n : PackageInfo) : List PackageView :=
  let addonPackageList :=
    PackageInfo.addPackages []
      (n.dependencyPackages.map PackageInfoList.objMap)
      (some (fun pkgInfo => !pkgInfo.isAddon || pkgInfo.name == "ember-cli"))
  PackageInfo.addPackages addonPackageList
    (n.inRepoAddons.map PackageInfoList.arr) none

/-- `discoverProjectAddons` of the source. The result is `none` when the
node has no `project` reference (in the source, reading
`project.isEmberCLIAddon()` off an undefined `this.project` would throw;
the method is only called on a project node). Otherwise the candidate
list is built from the six provenances in the fixed source order. -/
def PackageInfo.discoverProjectAddons (n : PackageInfo) :
    Option (List PackageView) :=
  match n.project with
  | none => none
  | some isEmberCLIAddon =>
    let addonPackageList :=
      PackageInfo.addPackages []
        (if isEmberCLIAddon then some (PackageInfoList.arr [n.toView]) else none)
        none
    let addonPackageList :=
      PackageInfo.addPackages addonPackageList
        ((n.cliInfoInRepoAddons.bind id).map PackageInfoList.arr) none
    let addonPackageList :=
      PackageInfo.addPackages addonPackageList
        (n.internalAddons.map PackageInfoList.arr) none
    let addonPackageList :=
      PackageInfo.addPackages addonPackageList
        (n.dependencyPackages.map PackageInfoList.objMap)
        (some (fun pkgInfo => !pkgInfo.isAddon))
    let addonPackageList :=
      PackageInfo.addPackages addonPackageList
        (n.devDependencyPackages.map PackageInfoList.objMap)
        (some (fun pkgInfo => !pkgInfo.isAddon))
    some (PackageInfo.addPackages addonPackageList
      (n.inRepoAddons.map PackageInfoList.arr) none)

/-- Modelled from the spec: the `AddonInfo` record of the external
`addon-info` module, the immutable addon record
`AddonRecord \x7b name, realPath, manifest \x7d` built from a valid candidate. -/
structure AddonInfo where
  name : String
  realPath : String
  pkg : PkgJson
deriving Repr, DecidableEq

/-- `new AddonInfo(pkgInfo.name, pkgInfo.realPath, pkgInfo.pkg)` of the
source: the record built from one valid candidate. -/
def mkAddonInfo (pkgInfo : PackageView) : AddonInfo :=
  ⟨pkgInfo.name, pkgInfo.realPath, pkgInfo.pkg⟩

/-- JavaScript object assignment `packageMap[name] = addonInfo` on a name
keyed object: an existing key keeps its position and gets the new value,
a fresh key is appended at the end. -/
def objInsert {α : Type} : List (String × α) → String → α →
    List (String × α)
  | [], k, v => [(k, v)]
  | kv :: rest, k, v =>
    if kv.1 == k then (k, v) :: rest else kv :: objInsert rest k v

/-- Reading `obj[name]` back off a name keyed object: the value at the
first (and in an object, only) entry with the given key. -/
def objLookup {α : Type} (m : List (String × α)) (k : String) :
    Option α :=
  (m.find? (fun kv => kv.1 == k)).map Prod.snd

/-- The survival test of `generateAddonPackages` apart from validity: a
candidate stays when there is no `excludeFn` or the `excludeFn` rejects
the record built from it. -/
def keepFn (excludeFn : Option (AddonInfo → Bool)) (pkgInfo : PackageView) :
    Bool :=
  match excludeFn with
  | some f => !(f (mkAddonInfo pkgInfo))
  | none => true

/-- `getValidPackages` of the source. -/
def getValidPackages (addonPackageList : List PackageView) :
    List PackageView :=
  addonPackageList.filter (fun pkgInfo => pkgInfo.valid)

/-- `getInvalidPackages` of the source. -/
def getInvalidPackages (addonPackageList : List PackageView) :
    List PackageView :=
  addonPackageList.filter (fun pkgInfo => !pkgInfo.valid)

/-- The body of the `validPackages.forEach` loop of
`generateAddonPackages`, lines 277 to 282 of the source: build the
`AddonInfo` record, and store it under the candidate name unless the
optional `excludeFn` returns true for the built record. -/
def genStep (excludeFn : Option (AddonInfo → Bool))
    (packageMap : List (String × AddonInfo)) (pkgInfo : PackageView) :
    List (String × AddonInfo) :=
  let addonInfo := mkAddonInfo pkgInfo
  match excludeFn with
  | some f =>
    if f addonInfo then packageMap
    else objInsert packageMap pkgInfo.name addonInfo
  | none => objInsert packageMap pkgInfo.name addonInfo

/-- `generateAddonPackages` of the source: keep the valid candidates,
build an `AddonInfo` from each, drop the ones the optional `excludeFn`
rejects (the predicate sees the built record), and store the rest in a
name keyed object, later assignments overwriting earlier ones. -/
def generateAddonPackages (addonPackageList : List PackageView)
    (excludeFn : Option (AddonInfo → Bool)) : List (String × AddonInfo) :=
  let validPackages := getValidPackages addonPackageList
  validPackages.foldl (genStep excludeFn) []

/-- The warning line written for one invalid candidate. `rel` stands for
the external `path.relative`. -/
def invalidAddonWarnLine (rel : String → String → String)
    (ownerRealPath : String) (p : PackageView) : String :=
  "   Excluding invalid/malformed/missing addon at relative path \x27"
    ++ rel ownerRealPath p.realPath ++ "\x27"

/-- The header line of the invalid addon warning block. -/
def invalidAddonWarnHeader (n : PackageInfo) : String :=
  "For " ++ (if n.project.isSome then "project" else "addon")
    ++ " at path " ++ n.realPath ++ ":"

/-- `dumpInvalidAddonPackages` of the source. `uiHasWarn` models
`this.cache.ui && ui.writeWarnLine` being available; `rel` models
`path.relative`. Returns the node (the dump flag is set on a first call)
and the list of lines written to the warning channel on this call. -/
def PackageInfo.dumpInvalidAddonPackages (n : PackageInfo)
    (addonPackageList : List PackageView) (uiHasWarn : Bool)
    (rel : String → String → String) : PackageInfo × List String :=
  if n.hasDumpedInvalidAddonPackages then
    (n, [])
  else
    let n := { n with hasDumpedInvalidAddonPackages := true }
    let invalidPackages := getInvalidPackages addonPackageList
    if invalidPackages.length > 0 && uiHasWarn then
      (n, invalidAddonWarnHeader n ::
        invalidPackages.map (invalidAddonWarnLine rel n.realPath))
    else
      (n, [])

/-- The addon map build of spec section 4.3 as the cache performs it on
one owning node: `generateAddonPackages` over the candidate list followed
by `dumpInvalidAddonPackages` on the same list. Returns the map, the
warning lines of this run, and the node afterwards. -/
def buildAddonMap (n : PackageInfo) (addonPackageList : List PackageView)
    (excludeFn : Option (AddonInfo → Bool)) (uiHasWarn : Bool)
    (rel : String → String → String) :
    List (String × AddonInfo) × List String × PackageInfo :=
  let packageMap := generateAddonPackages addonPackageList excludeFn
  let dumped := n.dumpInvalidAddonPackages addonPackageList uiHasWarn rel
  (packageMap, dumped.2, dumped.1)

/-! Concrete fixtures used to instantiate the theorems below on closed
inputs. -/

/-- A valid addon shaped package named `a`. -/
def vA : PackageView := ⟨⟨"a", some ["ember-addon"]⟩, "/proj/node_modules/a", true⟩

/-- An invalid addon shaped package named `b` (e.g. a broken in-repo addon). -/
def vB : PackageView := ⟨⟨"b", some ["ember-addon"]⟩, "/proj/lib/b", false⟩

/-- A valid package named `p` that is not addon shaped. -/
def vP : PackageView := ⟨⟨"p", none⟩, "/proj/node_modules/p", true⟩

/-- A valid addon shaped package named `ember-cli` (the host build tool). -/
def vCli : PackageView := ⟨⟨"ember-cli", some ["ember-addon"]⟩, "/proj/node_modules/ember-cli", true⟩

/-- A valid addon shaped internal addon named `i`. -/
def vI : PackageView := ⟨⟨"i", some ["ember-addon"]⟩, "/cli/lib/i", true⟩

/-- A valid addon shaped in-repo addon of the host build tool named `c`. -/
def vC : PackageView := ⟨⟨"c", some ["ember-addon"]⟩, "/cli/lib/c", true⟩

/-- A valid addon shaped dev dependency named `d`. -/
def vD : PackageView := ⟨⟨"d", some ["ember-addon"]⟩, "/proj/node_modules/d", true⟩

/-- A cache lookup that resolves only the name `a`, to `vA`. -/
def wcfA : String → String → Option PackageView :=
  fun depName _fromDir => if depName == "a" then some vA else none

/-- A cache lookup modelling an ancestor search that would find a
different package (`vP`) for every name. -/
def wcfOther : String → String → Option PackageView :=
  fun _depName _fromDir => some vP

/-- A stand in for `path.dirname`. -/
def wdn : String → String := fun s => s

/-- A stand in for `path.relative`. -/
def wrel : String → String → String := fun _from p => p

/-- A local module index (`nodeModules.findPackage`) that resolves only
the name `a`, to `vA`. -/
def wLocalFind : String → Option PackageView :=
  fun depName => if depName == "a" then some vA else none

/-- A project node whose own manifest is addon shaped, with all six
provenances of `discoverProjectAddons` populated. -/
def wProjNode : PackageInfo :=
  ⟨⟨"proj", some ["ember-addon"]⟩, "/proj", true, [], false,
    some [vB], some [vI], some (some [vC]),
    some [("a", vA), ("p", vP)], some [("d", vD)], none, some true⟩

/-- A node with no local module index, used for dependency resolution
through the cache alone. -/
def wDepNode : PackageInfo :=
  ⟨⟨"proj", none⟩, "/proj", true, [], false,
    none, none, none, none, none, none, none⟩

/-- A node whose local module index resolves `a` to `vA`. -/
def wLocalNode : PackageInfo :=
  ⟨⟨"proj", none⟩, "/proj", true, [], false,
    none, none, none, none, none, some wLocalFind, none⟩

/-- A project node that has not yet dumped invalid addon warnings. -/
def wDumpNode : PackageInfo :=
  ⟨⟨"proj", none⟩, "/proj", true, [], false,
    none, none, none, none, none, none, some true⟩

/-! Helper lemmas. -/

theorem depStep_foldl (cf : String → String → Option PackageView)
    (dn : String → String) (node : PackageInfo) (names : List String)
    (p0 : List (String × PackageView)) (m0 : List String) :
    names.foldl (depStep cf dn node) (p0, m0) =
      (p0 ++ resolvedEntries cf dn node names,
       m0 ++ missingNames cf dn node names) := by
  induction names generalizing p0 m0 with
  | nil => simp [resolvedEntries, missingNames]
  | cons x xs ih =>
    simp only [List.foldl_cons]
    cases h : resolveDep cf dn node x with
    | none =>
      simp only [depStep, h]
      rw [ih]
      simp [resolvedEntries, missingNames, h]
    | some p =>
      simp only [depStep, h]
      rw [ih]
      simp [resolvedEntries, missingNames, h]

theorem addDependencies_some (cf : String → String → Option PackageView)
    (dn : String → String) (node : PackageInfo) (names : List String)
    (h : names ≠ []) :
    node.addDependencies cf dn (some names) =
      (some (resolvedEntries cf dn node names),
       if (missingNames cf dn node names).length > 0 then
         node.addError ERROR_DEPENDENCIES_MISSING (missingNames cf dn node names)
       else node) := by
  have hlen : ¬names.length = 0 := by
    simpa [List.length_eq_zero] using h
  simp only [PackageInfo.addDependencies, if_neg hlen]
  rw [depStep_foldl]
  simp

theorem resolvedEntries_map_fst (cf : String → String → Option PackageView)
    (dn : String → String) (node : PackageInfo) (names : List String) :
    (resolvedEntries cf dn node names).map Prod.fst =
      names.filter (fun d => (resolveDep cf dn node d).isSome) := by
  induction names with
  | nil => simp [resolvedEntries]
  | cons x xs ih =>
    simp only [resolvedEntries] at ih ⊢
    cases h : resolveDep cf dn node x with
    | none => simp [List.filter_cons, h, ih]
    | some p => simp [List.filter_cons, h, ih]

theorem mem_resolvedEntries {cf : String → String → Option PackageView}
    {dn : String → String} {node : PackageInfo} {names : List String}
    {kv : String × PackageView}
    (h : kv ∈ resolvedEntries cf dn node names) :
    kv.1 ∈ names ∧ resolveDep cf dn node kv.1 = some kv.2 := by
  obtain ⟨d, hd, hkv⟩ := List.mem_filterMap.mp h
  cases hr : resolveDep cf dn node d with
  | none =>
    rw [hr] at hkv
    simp at hkv
  | some p =>
    rw [hr] at hkv
    simp only [Option.map_some', Option.some_inj] at hkv
    subst hkv
    exact ⟨hd, hr⟩

theorem objLookup_resolvedEntries
    {cf : String → String → Option PackageView} {dn : String → String}
    {node : PackageInfo} {names : List String} {d0 : String}
    {p : PackageView} (hres : resolveDep cf dn node d0 = some p)
    (hmem : d0 ∈ names) :
    objLookup (resolvedEntries cf dn node names) d0 = some p := by
  induction names with
  | nil => cases hmem
  | cons x xs ih =>
    by_cases hx : x = d0
    · subst hx
      simp [resolvedEntries, hres, objLookup, List.find?]
    · have hmem' : d0 ∈ xs := by
        cases List.mem_cons.mp hmem with
        | inl h => exact absurd h.symm hx
        | inr h => exact h
      cases hr : resolveDep cf dn node x with
      | none => simpa [resolvedEntries, hr] using ih hmem'
      | some q =>
        have hbeq : (x == d0) = false := by
          simpa [beq_iff_eq] using hx
        simpa [resolvedEntries, hr, objLookup, List.find?, hbeq]
          using ih hmem'

theorem addPackages_none (acc : List PackageView)
    (ex : Option (PackageView → Bool)) :
    PackageInfo.addPackages acc none ex = acc := rfl

theorem addPackages_some_arr (acc l : List PackageView) :
    PackageInfo.addPackages acc (some (PackageInfoList.arr l)) none =
      acc ++ l := by
  simp [PackageInfo.addPackages]

theorem addPackages_arr_opt (acc : List PackageView)
    (o : Option (List PackageView)) :
    PackageInfo.addPackages acc (o.map PackageInfoList.arr) none =
      acc ++ o.getD [] := by
  cases o <;> simp [PackageInfo.addPackages]

theorem addPackages_bind_arr (acc : List PackageView)
    (o : Option (Option (List PackageView))) :
    PackageInfo.addPackages acc
      (o.bind fun a => Option.map PackageInfoList.arr a) none =
      acc ++ (o.bind fun a => a).getD [] := by
  cases o with
  | none => simp [PackageInfo.addPackages]
  | some oo => cases oo <;> simp [PackageInfo.addPackages]

theorem addPackages_obj_opt (acc : List PackageView)
    (o : Option (List (String × PackageView))) (f : PackageView → Bool) :
    PackageInfo.addPackages acc (o.map PackageInfoList.objMap) (some f) =
      acc ++ ((o.getD []).filter (fun kv => !(f kv.2))).map Prod.snd := by
  cases o <;> simp [PackageInfo.addPackages]

theorem objLookup_objInsert {α : Type} (m : List (String × α)) (k k' : String)
    (v : α) :
    objLookup (objInsert m k v) k' =
      if k' == k then some v else objLookup m k' := by
  induction m with
  | nil =>
    by_cases h : k' = k
    · simp [objInsert, objLookup, List.find?, h]
    · have hb : (k == k') = false := by simpa [beq_iff_eq] using (Ne.symm h)
      have hb' : (k' == k) = false := by simpa [beq_iff_eq] using h
      simp [objInsert, objLookup, List.find?, hb, hb']
  | cons kv rest ih =>
    by_cases hk : kv.1 = k
    · have hb : (kv.1 == k) = true := by simpa [beq_iff_eq] using hk
      by_cases h : k' = k
      · subst h
        simp [objInsert, objLookup, List.find?, hb, beq_iff_eq, hk]
      · have hb1 : (k == k') = false := by
          simpa [beq_iff_eq] using (Ne.symm h)
        have hb2 : (k' == k) = false := by simpa [beq_iff_eq] using h
        have hb3 : (kv.1 == k') = false := by
          rw [hk]; simpa [beq_iff_eq] using (Ne.symm h)
        simp [objInsert, objLookup, List.find?, hb, hb1, hb2, hb3]
    · have hb : (kv.1 == k) = false := by simpa [beq_iff_eq] using hk
      by_cases h2 : kv.1 = k'
      · have hb2 : (kv.1 == k') = true := by simpa [beq_iff_eq] using h2
        have hb3 : (k' == k) = false := by
          rw [← h2]; simpa [beq_iff_eq] using hk
        simp [objInsert, objLookup, List.find?, hb, hb2, hb3]
      · have hb2 : (kv.1 == k') = false := by simpa [beq_iff_eq] using h2
        simpa [objInsert, objLookup, List.find?, hb, hb2] using ih

theorem objLookup_foldl_objInsert {α : Type}
    (entries : List (String × α)) (m : List (String × α)) (k : String) :
    objLookup (entries.foldl (fun acc kv => objInsert acc kv.1 kv.2) m) k =
      match (entries.filter (fun kv => kv.1 == k)).getLast? with
      | some kv => some kv.2
      | none => objLookup m k := by
  induction entries generalizing m with
  | nil => simp
  | cons e es ih =>
    simp only [List.foldl_cons, List.filter_cons]
    rw [ih]
    by_cases he : e.1 = k
    · have hb : (e.1 == k) = true := by simpa [beq_iff_eq] using he
      simp only [hb, if_pos rfl]
      cases hrest : (es.filter (fun kv => kv.1 == k)).getLast? with
      | some kv =>
        have hcons : (e :: es.filter (fun kv => kv.1 == k)).getLast? = some kv :=
          Option.mem_def.mp
            (List.mem_getLast?_cons (Option.mem_def.mpr hrest))
        simp [hrest, hcons]
      | none =>
        have hnil : es.filter (fun kv => kv.1 == k) = [] := by
          simpa [List.getLast?_eq_none_iff] using hrest
        have hbk : (k == e.1) = true := by simpa [beq_iff_eq] using he.symm
        simp [hnil, objLookup_objInsert, hbk, he]
    · have hb : (e.1 == k) = false := by simpa [beq_iff_eq] using he
      simp only [hb, Bool.false_eq_true, if_false]
      cases hrest : (es.filter (fun kv => kv.1 == k)).getLast? with
      | some kv => simp [hrest]
      | none =>
        have hbk : (k == e.1) = false := by
          simpa [beq_iff_eq] using (fun h2 => he h2.symm)
        simp [hrest, objLookup_objInsert, hbk]

theorem mem_objInsert {α : Type} {m : List (String × α)} {k : String}
    {v kv : _} (h : kv ∈ objInsert m k v) : kv = (k, v) ∨ kv ∈ m := by
  induction m with
  | nil => simpa [objInsert] using h
  | cons e es ih =>
    by_cases he : e.1 = k
    · have hb : (e.1 == k) = true := by simpa [beq_iff_eq] using he
      simp only [objInsert, hb, if_pos rfl] at h
      cases List.mem_cons.mp h with
      | inl h1 => exact Or.inl h1
      | inr h1 => exact Or.inr (List.mem_cons_of_mem _ h1)
    · have hb : (e.1 == k) = false := by simpa [beq_iff_eq] using he
      simp only [objInsert, hb, Bool.false_eq_true, if_false] at h
      cases List.mem_cons.mp h with
      | inl h1 => exact Or.inr (h1 ▸ List.mem_cons_self _ _)
      | inr h1 =>
        cases ih h1 with
        | inl h2 => exact Or.inl h2
        | inr h2 => exact Or.inr (List.mem_cons_of_mem _ h2)

theorem mem_foldl_objInsert {α : Type} {entries m : List (String × α)}
    {kv : String × α}
    (h : kv ∈ entries.foldl (fun acc e => objInsert acc e.1 e.2) m) :
    kv ∈ m ∨ kv ∈ entries := by
  induction entries generalizing m with
  | nil => exact Or.inl (by simpa using h)
  | cons e es ih =>
    simp only [List.foldl_cons] at h
    cases ih h with
    | inl h1 =>
      cases mem_objInsert h1 with
      | inl h2 => exact Or.inr (by simp [h2])
      | inr h2 => exact Or.inl h2
    | inr h1 => exact Or.inr (List.mem_cons_of_mem _ h1)

theorem genStep_foldl (ex : Option (AddonInfo → Bool))
    (l : List PackageView) (m : List (String × AddonInfo)) :
    l.foldl (genStep ex) m =
      ((l.filter (keepFn ex)).map (fun p => (p.name, mkAddonInfo p))).foldl
        (fun acc e => objInsert acc e.1 e.2) m := by
  induction l generalizing m with
  | nil => simp
  | cons p ps ih =>
    cases ex with
    | none =>
      simp only [List.foldl_cons, genStep, keepFn, List.filter_cons,
        if_pos rfl, List.map_cons]
      exact ih _
    | some f =>
      cases hf : f (mkAddonInfo p) with
      | true =>
        simp only [List.foldl_cons, genStep, keepFn, List.filter_cons, hf]
        simpa using ih m
      | false =>
        simp only [List.foldl_cons, genStep, keepFn, List.filter_cons, hf]
        simpa using ih (objInsert m p.name (mkAddonInfo p))

theorem generateAddonPackages_eq_foldl (l : List PackageView)
    (ex : Option (AddonInfo → Bool)) :
    generateAddonPackages l ex =
      (((getValidPackages l).filter (keepFn ex)).map
        (fun p => (p.name, mkAddonInfo p))).foldl
        (fun acc e => objInsert acc e.1 e.2) [] := by
  simp only [generateAddonPackages]
  exact genStep_foldl ex (getValidPackages l) []

/-! Claim theorems. -/

/-- C7: for every node, `addDependencies` applied to an absent (`null`)
dependency spec, or to a spec with zero declared names, returns `null`
(`none`, not an empty mapping) and records no error on the node (the node
is returned unchanged). -/
theorem addDependencies_empty_spec_yields_null
    (cf : String → String → Option PackageView) (dn : String → String)
    (node : PackageInfo) :
    node.addDependencies cf dn none = (none, node) ∧
    node.addDependencies cf dn (some []) = (none, node) := by
  constructor
  · rfl
  · simp [PackageInfo.addDependencies]

/-- C8: for every node and non-empty dependency spec in which every
declared name resolves, the mapping returned by `addDependencies` has
exactly as many entries as the spec, is keyed by the declared names in
order (not by the resolved package's own name), and the node comes back
unchanged, so no "dependencies missing" error is recorded. -/
theorem addDependencies_all_resolve
    (cf : String → String → Option PackageView) (dn : String → String)
    (node : PackageInfo) (names : List String) (hne : names ≠ [])
    (hall : ∀ d ∈ names, (resolveDep cf dn node d).isSome) :
    node.addDependencies cf dn (some names) =
      (some (resolvedEntries cf dn node names), node) ∧
    (resolvedEntries cf dn node names).length = names.length ∧
    (resolvedEntries cf dn node names).map Prod.fst = names ∧
    ∀ kv ∈ resolvedEntries cf dn node names,
      resolveDep cf dn node kv.1 = some kv.2 := by
  have hmiss : missingNames cf dn node names = [] := by
    refine List.filter_eq_nil_iff.mpr (fun d hd => ?_)
    obtain ⟨p, hp⟩ := Option.isSome_iff_exists.mp (hall d hd)
    simp [hp]
  have hfst : (resolvedEntries cf dn node names).map Prod.fst = names := by
    rw [resolvedEntries_map_fst]
    exact List.filter_eq_self.mpr hall
  refine ⟨?_, ?_, hfst, fun kv hkv => (mem_resolvedEntries hkv).2⟩
  · rw [addDependencies_some cf dn node names hne]
    simp [hmiss]
  · calc (resolvedEntries cf dn node names).length
        = ((resolvedEntries cf dn node names).map Prod.fst).length := by
          rw [List.length_map]
      _ = names.length := by rw [hfst]

/-- C8 witness: on the node `wDepNode` with spec `["a"]`, every name
resolves through `wcfA` and the returned mapping is as the theorem
states. -/
theorem addDependencies_all_resolve_witness :
    ((["a"] : List String) ≠ [] ∧
      ∀ d ∈ (["a"] : List String), (resolveDep wcfA wdn wDepNode d).isSome) ∧
    (wDepNode.addDependencies wcfA wdn (some ["a"]) =
      (some (resolvedEntries wcfA wdn wDepNode ["a"]), wDepNode) ∧
    (resolvedEntries wcfA wdn wDepNode ["a"]).length = (["a"] : List String).length ∧
    (resolvedEntries wcfA wdn wDepNode ["a"]).map Prod.fst = ["a"] ∧
    ∀ kv ∈ resolvedEntries wcfA wdn wDepNode ["a"],
      resolveDep wcfA wdn wDepNode kv.1 = some kv.2) :=
  ⟨⟨by decide, by decide⟩,
    addDependencies_all_resolve wcfA wdn wDepNode ["a"] (by decide) (by decide)⟩

/-- C2: for every node and non-empty dependency spec in which some
declared name fails to resolve, `addDependencies` appends exactly one
error to the node, of kind "dependencies missing", carrying exactly the
failed names; the returned mapping contains exactly the names that did
resolve, keyed by declared name; and the valid flag is unchanged. (The
Lean function is total, so no exception is thrown on any input.) -/
theorem addDependencies_some_missing
    (cf : String → String → Option PackageView) (dn : String → String)
    (node : PackageInfo) (names : List String) (d0 : String)
    (hmem : d0 ∈ names) (hfail : resolveDep cf dn node d0 = none) :
    node.addDependencies cf dn (some names) =
      (some (resolvedEntries cf dn node names),
       node.addError ERROR_DEPENDENCIES_MISSING (missingNames cf dn node names)) ∧
    (node.addError ERROR_DEPENDENCIES_MISSING (missingNames cf dn node names)).errors
      = node.errors ++ [(ERROR_DEPENDENCIES_MISSING, missingNames cf dn node names)] ∧
    (node.addError ERROR_DEPENDENCIES_MISSING (missingNames cf dn node names)).valid
      = node.valid ∧
    (∀ d, d ∈ missingNames cf dn node names ↔
      (d ∈ names ∧ resolveDep cf dn node d = none)) ∧
    (resolvedEntries cf dn node names).map Prod.fst =
      names.filter (fun d => (resolveDep cf dn node d).isSome) := by
  have hne : names ≠ [] := List.ne_nil_of_mem hmem
  have hd0 : d0 ∈ missingNames cf dn node names :=
    List.mem_filter.mpr ⟨hmem, by simp [hfail]⟩
  have hpos : (missingNames cf dn node names).length > 0 :=
    List.length_pos.mpr (List.ne_nil_of_mem hd0)
  refine ⟨?_, rfl, rfl, ?_, resolvedEntries_map_fst cf dn node names⟩
  · rw [addDependencies_some cf dn node names hne, if_pos hpos]
  · intro d
    simp [missingNames, List.mem_filter, Option.isNone_iff_eq_none]

/-- C2 witness: on the node `wDepNode` with spec `["a", "b"]`, the name
`b` fails to resolve through `wcfA` and the theorem's conclusions hold. -/
theorem addDependencies_some_missing_witness :
    (("b" : String) ∈ (["a", "b"] : List String) ∧
      resolveDep wcfA wdn wDepNode "b" = none) ∧
    (wDepNode.addDependencies wcfA wdn (some ["a", "b"]) =
      (some (resolvedEntries wcfA wdn wDepNode ["a", "b"]),
       wDepNode.addError ERROR_DEPENDENCIES_MISSING
         (missingNames wcfA wdn wDepNode ["a", "b"])) ∧
    (wDepNode.addError ERROR_DEPENDENCIES_MISSING
        (missingNames wcfA wdn wDepNode ["a", "b"])).errors
      = wDepNode.errors ++
          [(ERROR_DEPENDENCIES_MISSING, missingNames wcfA wdn wDepNode ["a", "b"])] ∧
    (wDepNode.addError ERROR_DEPENDENCIES_MISSING
        (missingNames wcfA wdn wDepNode ["a", "b"])).valid = wDepNode.valid ∧
    (∀ d, d ∈ missingNames wcfA wdn wDepNode ["a", "b"] ↔
      (d ∈ (["a", "b"] : List String) ∧ resolveDep wcfA wdn wDepNode d = none)) ∧
    (resolvedEntries wcfA wdn wDepNode ["a", "b"]).map Prod.fst =
      (["a", "b"] : List String).filter
        (fun d => (resolveDep wcfA wdn wDepNode d).isSome)) :=
  ⟨⟨by decide, by decide⟩,
    addDependencies_some_missing wcfA wdn wDepNode ["a", "b"] "b"
      (by decide) (by decide)⟩

/-- C10: for every node and non-empty dependency spec in which no
declared name resolves, `addDependencies` returns an empty mapping
(`some []`, distinct from the `none` returned for an absent spec) while
recording the missing dependencies error carrying all declared names. -/
theorem addDependencies_none_resolve
    (cf : String → String → Option PackageView) (dn : String → String)
    (node : PackageInfo) (names : List String) (hne : names ≠ [])
    (hnone : ∀ d ∈ names, resolveDep cf dn node d = none) :
    node.addDependencies cf dn (some names) =
      (some [], node.addError ERROR_DEPENDENCIES_MISSING names) ∧
    (node.addDependencies cf dn (some names)).1 ≠ none ∧
    node.addDependencies cf dn none = (none, node) ∧
    (node.addError ERROR_DEPENDENCIES_MISSING names).errors =
      node.errors ++ [(ERROR_DEPENDENCIES_MISSING, names)] := by
  have hmiss : missingNames cf dn node names = names :=
    List.filter_eq_self.mpr (fun d hd => by simp [hnone d hd])
  have hentries : resolvedEntries cf dn node names = [] :=
    List.filterMap_eq_nil_iff.mpr (fun d hd => by simp [hnone d hd])
  have hpos : (missingNames cf dn node names).length > 0 := by
    rw [hmiss]
    exact List.length_pos.mpr hne
  have heq : node.addDependencies cf dn (some names) =
      (some [], node.addError ERROR_DEPENDENCIES_MISSING names) := by
    rw [addDependencies_some cf dn node names hne, if_pos hpos, hmiss, hentries]
  refine ⟨heq, ?_, rfl, rfl⟩
  rw [heq]
  simp

/-- C10 witness: on the node `wDepNode` with spec `["z"]`, nothing
resolves through `wcfA` and the result is the empty mapping next to the
recorded error. -/
theorem addDependencies_none_resolve_witness :
    ((["z"] : List String) ≠ [] ∧
      ∀ d ∈ (["z"] : List String), resolveDep wcfA wdn wDepNode d = none) ∧
    (wDepNode.addDependencies wcfA wdn (some ["z"]) =
      (some [], wDepNode.addError ERROR_DEPENDENCIES_MISSING ["z"]) ∧
    (wDepNode.addDependencies wcfA wdn (some ["z"])).1 ≠ none ∧
    wDepNode.addDependencies wcfA wdn none = (none, wDepNode) ∧
    (wDepNode.addError ERROR_DEPENDENCIES_MISSING ["z"]).errors =
      wDepNode.errors ++ [(ERROR_DEPENDENCIES_MISSING, ["z"])]) :=
  ⟨⟨by decide, by decide⟩,
    addDependencies_none_resolve wcfA wdn wDepNode ["z"] (by decide) (by decide)⟩

/-- C6: for every node with a local module index that resolves a declared
name, `addDependencies` maps that name to the local index's result for
every cache lookup function whatsoever (the ascending directory search is
never consulted for that name, even when it would return a different
package). -/
theorem addDependencies_local_index_short_circuits
    (cf : String → String → Option PackageView) (dn : String → String)
    (node : PackageInfo) (names : List String)
    (f : String → Option PackageView) (d0 : String) (p : PackageView)
    (hnm : node.nodeModulesFind = some f) (hf : f d0 = some p)
    (hmem : d0 ∈ names) :
    resolveDep cf dn node d0 = some p ∧
    ∃ pkgs, (node.addDependencies cf dn (some names)).1 = some pkgs ∧
      objLookup pkgs d0 = some p := by
  have hres : resolveDep cf dn node d0 = some p := by
    simp [resolveDep, hnm, hf]
  refine ⟨hres, resolvedEntries cf dn node names, ?_, ?_⟩
  · rw [addDependencies_some cf dn node names (List.ne_nil_of_mem hmem)]
  · exact objLookup_resolvedEntries hres hmem

/-- C6 witness: on the node `wLocalNode`, whose local index resolves `a`
to `vA`, the cache lookup `wcfOther` would resolve every name to the
different package `vP`, yet `a` is mapped to `vA`. -/
theorem addDependencies_local_index_short_circuits_witness :
    (wLocalNode.nodeModulesFind = some wLocalFind ∧
      wLocalFind "a" = some vA ∧ ("a" : String) ∈ (["a"] : List String)) ∧
    (resolveDep wcfOther wdn wLocalNode "a" = some vA ∧
    ∃ pkgs, (wLocalNode.addDependencies wcfOther wdn (some ["a"])).1 = some pkgs ∧
      objLookup pkgs "a" = some vA) :=
  ⟨⟨rfl, by decide, by decide⟩,
    addDependencies_local_index_short_circuits wcfOther wdn wLocalNode
      ["a"] wLocalFind "a" vA rfl (by decide) (by decide)⟩

/-- C5: for every addon node, `discoverAddonAddons` returns exactly its
dependency packages filtered to candidates that are addon shaped and not
named `ember-cli`, followed by its in-repo addons unfiltered; and dev
dependency packages are never consulted (changing them changes nothing). -/
theorem discoverAddonAddons_order (n : PackageInfo) :
    n.discoverAddonAddons =
      (((n.dependencyPackages.getD []).filter
        (fun kv => kv.2.isAddon && !(kv.2.name == "ember-cli"))).map
          Prod.snd) ++
      n.inRepoAddons.getD [] ∧
    ∀ ddp, PackageInfo.discoverAddonAddons
      { n with devDependencyPackages := ddp } = n.discoverAddonAddons := by
  constructor
  · unfold PackageInfo.discoverAddonAddons
    rw [addPackages_obj_opt, addPackages_arr_opt]
    simp [Bool.not_or, Bool.not_not]
  · intro ddp
    rfl

/-- C1: for every project node (one whose `project` reference exists),
`discoverProjectAddons` returns, in this order: the node itself exactly
when the project package is recognized as addon shaped, then the host
build tool's in-repo addons when a `cliInfo` reference exists, then the
internal addons, then the dependency packages filtered to addon shaped
candidates, then the dev dependency packages filtered likewise, then the
in-repo addons; in particular, when the project package is addon shaped,
the project node is the first element. -/
theorem discoverProjectAddons_order (n : PackageInfo) (b : Bool)
    (hp : n.project = some b) :
    n.discoverProjectAddons = some (
      (if b then [n.toView] else []) ++
      (n.cliInfoInRepoAddons.bind id).getD [] ++
      n.internalAddons.getD [] ++
      ((n.dependencyPackages.getD []).filter
        (fun kv => kv.2.isAddon)).map Prod.snd ++
      ((n.devDependencyPackages.getD []).filter
        (fun kv => kv.2.isAddon)).map Prod.snd ++
      n.inRepoAddons.getD []) ∧
    (b = true → ∃ rest, n.discoverProjectAddons = some (n.toView :: rest)) := by
  have heq : n.discoverProjectAddons = some (
      (if b then [n.toView] else []) ++
      (n.cliInfoInRepoAddons.bind id).getD [] ++
      n.internalAddons.getD [] ++
      ((n.dependencyPackages.getD []).filter
        (fun kv => kv.2.isAddon)).map Prod.snd ++
      ((n.devDependencyPackages.getD []).filter
        (fun kv => kv.2.isAddon)).map Prod.snd ++
      n.inRepoAddons.getD []) := by
    unfold PackageInfo.discoverProjectAddons
    rw [hp]
    cases b <;>
      simp [addPackages_none, addPackages_some_arr, addPackages_arr_opt,
        addPackages_bind_arr, addPackages_obj_opt, Bool.not_not,
        List.append_assoc]
  refine ⟨heq, fun hb => ?_⟩
  subst hb
  rw [heq]
  simp

/-- C1 witness: on the project node `wProjNode`, whose own manifest is
addon shaped and all six provenances are populated, the discovery order
is as the theorem states and the node itself comes first. -/
theorem discoverProjectAddons_order_witness :
    wProjNode.project = some true ∧
    (wProjNode.discoverProjectAddons = some (
      (if true then [wProjNode.toView] else []) ++
      (wProjNode.cliInfoInRepoAddons.bind id).getD [] ++
      wProjNode.internalAddons.getD [] ++
      ((wProjNode.dependencyPackages.getD []).filter
        (fun kv => kv.2.isAddon)).map Prod.snd ++
      ((wProjNode.devDependencyPackages.getD []).filter
        (fun kv => kv.2.isAddon)).map Prod.snd ++
      wProjNode.inRepoAddons.getD []) ∧
    (true = true → ∃ rest,
      wProjNode.discoverProjectAddons = some (wProjNode.toView :: rest))) :=
  ⟨rfl, discoverProjectAddons_order wProjNode true rfl⟩

/-- C3: for every candidate list, the map built by
`generateAddonPackages` reads back, at every name, the record built from
the last valid, not excluded candidate bearing that name (so invalid
candidates never contribute, the exclude predicate is applied to the
built record via `keepFn`, and on a name collision the later candidate
wins); moreover every entry of the map comes from a valid candidate, and
every valid, not excluded candidate has an entry at its name. -/
theorem generateAddonPackages_spec (l : List PackageView)
    (ex : Option (AddonInfo → Bool)) (k : String) :
    objLookup (generateAddonPackages l ex) k =
      (((getValidPackages l).filter (keepFn ex)).filter
        (fun p => p.name == k)).getLast?.map mkAddonInfo ∧
    (∀ kv ∈ generateAddonPackages l ex,
      ∃ p, p ∈ l ∧ p.valid = true ∧ kv = (p.name, mkAddonInfo p)) ∧
    (∀ p ∈ l, p.valid = true → keepFn ex p = true →
      (objLookup (generateAddonPackages l ex) p.name).isSome = true) := by
  have h1 : ∀ k' : String, objLookup (generateAddonPackages l ex) k' =
      (((getValidPackages l).filter (keepFn ex)).filter
        (fun p => p.name == k')).getLast?.map mkAddonInfo := by
    intro k'
    rw [generateAddonPackages_eq_foldl, objLookup_foldl_objInsert,
      List.filter_map, List.getLast?_map]
    have hcomp : ((getValidPackages l).filter (keepFn ex)).filter
        ((fun kv => kv.1 == k') ∘ fun p => (p.name, mkAddonInfo p)) =
        ((getValidPackages l).filter (keepFn ex)).filter
          (fun p => p.name == k') :=
      List.filter_congr (fun p _ => rfl)
    rw [hcomp]
    cases hlast : (((getValidPackages l).filter (keepFn ex)).filter
        (fun p => p.name == k')).getLast? <;> rfl
  refine ⟨h1 k, ?_, ?_⟩
  · intro kv hkv
    rw [generateAddonPackages_eq_foldl] at hkv
    cases mem_foldl_objInsert hkv with
    | inl h => simp at h
    | inr h =>
      obtain ⟨p, hp, hpe⟩ := List.mem_map.mp h
      have hp1 := List.mem_filter.mp hp
      have hp2 := List.mem_filter.mp hp1.1
      exact ⟨p, hp2.1, hp2.2, hpe.symm⟩
  · intro p hp hvalid hkeep
    have hmem : p ∈ ((getValidPackages l).filter (keepFn ex)).filter
        (fun q => q.name == p.name) := by
      refine List.mem_filter.mpr ⟨List.mem_filter.mpr ⟨?_, hkeep⟩, ?_⟩
      · exact List.mem_filter.mpr ⟨hp, hvalid⟩
      · simp
    have hne : ((getValidPackages l).filter (keepFn ex)).filter
        (fun q => q.name == p.name) ≠ [] := List.ne_nil_of_mem hmem
    have hlast : (((getValidPackages l).filter (keepFn ex)).filter
        (fun q => q.name == p.name)).getLast? ≠ none := by
      simpa [List.getLast?_eq_none_iff] using hne
    rw [h1 p.name]
    cases hcase : (((getValidPackages l).filter (keepFn ex)).filter
        (fun q => q.name == p.name)).getLast? with
    | none => exact absurd hcase hlast
    | some q => simp

/-- C4: running the addon map build twice on the same candidate list with
the same owning node produces the identical map both times, and the
invalid package warning block (the header line naming the owner role and
real path, then one line per invalid candidate with its path relative to
the owner) is emitted on the first run only. -/
theorem buildAddonMap_twice (n : PackageInfo) (l : List PackageView)
    (ex : Option (AddonInfo → Bool)) (rel : String → String → String)
    (hflag : n.hasDumpedInvalidAddonPackages = false)
    (hinv : getInvalidPackages l ≠ []) :
    (buildAddonMap (buildAddonMap n l ex true rel).2.2 l ex true rel).1 =
      (buildAddonMap n l ex true rel).1 ∧
    (buildAddonMap n l ex true rel).2.1 =
      invalidAddonWarnHeader n ::
        (getInvalidPackages l).map (invalidAddonWarnLine rel n.realPath) ∧
    (buildAddonMap (buildAddonMap n l ex true rel).2.2 l ex true rel).2.1
      = [] := by
  have hlen : (getInvalidPackages l).length > 0 :=
    List.length_pos.mpr hinv
  have hdump1 : n.dumpInvalidAddonPackages l true rel =
      ({ n with hasDumpedInvalidAddonPackages := true },
       invalidAddonWarnHeader n ::
         (getInvalidPackages l).map (invalidAddonWarnLine rel n.realPath)) := by
    simp [PackageInfo.dumpInvalidAddonPackages, hflag, hlen,
      invalidAddonWarnHeader]
  have hdump2 : PackageInfo.dumpInvalidAddonPackages
      { n with hasDumpedInvalidAddonPackages := true } l true rel =
      ({ n with hasDumpedInvalidAddonPackages := true }, []) := by
    simp [PackageInfo.dumpInvalidAddonPackages]
  refine ⟨rfl, ?_, ?_⟩
  · show (n.dumpInvalidAddonPackages l true rel).2 = _
    rw [hdump1]
  · show (PackageInfo.dumpInvalidAddonPackages
      (n.dumpInvalidAddonPackages l true rel).1 l true rel).2 = []
    rw [hdump1, hdump2]

/-- C4 witness: on the node `wDumpNode` with candidates `[vA, vB]` (the
second invalid), the two runs give the same map and only the first warns. -/
theorem buildAddonMap_twice_witness :
    (wDumpNode.hasDumpedInvalidAddonPackages = false ∧
      getInvalidPackages [vA, vB] ≠ []) ∧
    ((buildAddonMap (buildAddonMap wDumpNode [vA, vB] none true wrel).2.2
        [vA, vB] none true wrel).1 =
      (buildAddonMap wDumpNode [vA, vB] none true wrel).1 ∧
    (buildAddonMap wDumpNode [vA, vB] none true wrel).2.1 =
      invalidAddonWarnHeader wDumpNode ::
        (getInvalidPackages [vA, vB]).map
          (invalidAddonWarnLine wrel wDumpNode.realPath) ∧
    (buildAddonMap (buildAddonMap wDumpNode [vA, vB] none true wrel).2.2
        [vA, vB] none true wrel).2.1 = []) :=
  ⟨⟨rfl, by decide⟩,
    buildAddonMap_twice wDumpNode [vA, vB] none wrel rfl (by decide)⟩

/-- C9: the one time dump flag is set by the first call to
`dumpInvalidAddonPackages` regardless of whether anything is reported:
when the first call finds no invalid candidates or no warning channel is
configured, it emits nothing, and every later call on the resulting node
emits nothing either, whatever candidates and channel it is given. -/
theorem dumpInvalidAddonPackages_flag_set_regardless (n : PackageInfo)
    (l : List PackageView) (ui : Bool) (rel : String → String → String)
    (hflag : n.hasDumpedInvalidAddonPackages = false)
    (hquiet : getInvalidPackages l = [] ∨ ui = false) :
    (n.dumpInvalidAddonPackages l ui rel).2 = [] ∧
    (n.dumpInvalidAddonPackages l ui rel).1 =
      { n with hasDumpedInvalidAddonPackages := true } ∧
    ∀ (l2 : List PackageView) (ui2 : Bool) (rel2 : String → String → String),
      PackageInfo.dumpInvalidAddonPackages
        { n with hasDumpedInvalidAddonPackages := true } l2 ui2 rel2 =
      ({ n with hasDumpedInvalidAddonPackages := true }, []) := by
  have hmain : n.dumpInvalidAddonPackages l ui rel =
      ({ n with hasDumpedInvalidAddonPackages := true }, []) := by
    cases hquiet with
    | inl h => simp [PackageInfo.dumpInvalidAddonPackages, hflag, h]
    | inr h => simp [PackageInfo.dumpInvalidAddonPackages, hflag, h]
  refine ⟨by rw [hmain], by rw [hmain], ?_⟩
  intro l2 ui2 rel2
  simp [PackageInfo.dumpInvalidAddonPackages]

/-- C9 witness: on the node `wDumpNode` with only valid candidates, the
first call emits nothing, sets the flag, and a later call with invalid
candidates and a live channel still emits nothing. -/
theorem dumpInvalidAddonPackages_flag_set_regardless_witness :
    (wDumpNode.hasDumpedInvalidAddonPackages = false ∧
      (getInvalidPackages [vA] = [] ∨ (true : Bool) = false)) ∧
    ((wDumpNode.dumpInvalidAddonPackages [vA] true wrel).2 = [] ∧
    (wDumpNode.dumpInvalidAddonPackages [vA] true wrel).1 =
      { wDumpNode with hasDumpedInvalidAddonPackages := true } ∧
    ∀ (l2 : List PackageView) (ui2 : Bool) (rel2 : String → String → String),
      PackageInfo.dumpInvalidAddonPackages
        { wDumpNode with hasDumpedInvalidAddonPackages := true } l2 ui2 rel2 =
      ({ wDumpNode with hasDumpedInvalidAddonPackages := true }, [])) :=
  ⟨⟨rfl, Or.inl (by decide)⟩,
    dumpInvalidAddonPackages_flag_set_regardless wDumpNode [vA] true wrel
      rfl (Or.inl (by decide))⟩

end PackageInfoCache
